import Mathlib

/-!
Shallow embedding of the Color-Space-Explorer core: the Pass-A compute
fragment shader (color conversions, polar remap, palette classifier), the
Pass-B display shader's boundary logic, the pixel oracle `getColorAt`, the
palette `addColor` limit, the cube wireframe generator, the internal
cross-section generator, and the axis-slice normalizer.

GLSL floats and JS numbers are modelled as real numbers (exact arithmetic);
machine byte values read back from textures are modelled as naturals.
-/

noncomputable section

set_option maxHeartbeats 1000000

/-- GLSL vec3 over the reals. -/
structure Vec3 where
  x : ℝ
  y : ℝ
  z : ℝ
deriving DecidableEq

/-- GLSL vec4 over the reals. -/
structure Vec4 where
  x : ℝ
  y : ℝ
  z : ℝ
  w : ℝ
deriving DecidableEq

/-- Dynamic component read `v[i]` with an int index, as used by
`colorCoord[u_polarAxes.x]` in the compute shader (indices are 0, 1 or 2). -/
def Vec3.get (v : Vec3) (i : ℤ) : ℝ :=
  if i = 0 then v.x else if i = 1 then v.y else v.z

/-- Dynamic component write `v[i] = r` with an int index. -/
def Vec3.set (v : Vec3) (i : ℤ) (r : ℝ) : Vec3 :=
  if i = 0 then { v with x := r } else if i = 1 then { v with y := r } else { v with z := r }

/-- GLSL `clamp(x, lo, hi)`. -/
def glClamp (x lo hi : ℝ) : ℝ := max lo (min x hi)

/-- GLSL `fract(x) = x - floor(x)`. -/
def glFract (x : ℝ) : ℝ := Int.fract x

/-- GLSL `length` of a 2-vector, used by `cartesianToPolar`. -/
def glLength2 (v : ℝ × ℝ) : ℝ := Real.sqrt (v.1 * v.1 + v.2 * v.2)

/-- GLSL `atan(y, x)`: the argument of the point `(x, y)`, in `(-π, π]`
(0 at the origin), modelled by the complex argument of `x + y·i`. -/
def glAtan2 (y x : ℝ) : ℝ := Complex.arg ⟨x, y⟩

/-! ### Compute fragment shader (part_008): color conversions -/

/-- `hueToRgb` from the compute fragment shader:
`p = abs(fract(h + k) * 6 - 3)` with `k = (1, 2/3, 1/3)`, then
`clamp(p - 1, 0, 1)` componentwise. -/
def hueToRgb (h : ℝ) : Vec3 :=
  { x := glClamp (|glFract (h + 1) * 6 - 3| - 1) 0 1
    y := glClamp (|glFract (h + 2/3) * 6 - 3| - 1) 0 1
    z := glClamp (|glFract (h + 1/3) * 6 - 3| - 1) 0 1 }

/-- `hsvToRgb`: `v * (hueToRgb(h)*s - s + 1)` componentwise. -/
def hsvToRgb (h s v : ℝ) : Vec3 :=
  { x := v * ((hueToRgb h).x * s - s + 1)
    y := v * ((hueToRgb h).y * s - s + 1)
    z := v * ((hueToRgb h).z * s - s + 1) }

/-- `hslToRgb`: `l + c * (hueToRgb(h) - 0.5)` with `c = (1 - |2l - 1|) * s`. -/
def hslToRgb (h s l : ℝ) : Vec3 :=
  { x := l + ((1 - |2 * l - 1|) * s) * ((hueToRgb h).x - 0.5)
    y := l + ((1 - |2 * l - 1|) * s) * ((hueToRgb h).y - 0.5)
    z := l + ((1 - |2 * l - 1|) * s) * ((hueToRgb h).z - 0.5) }

/-- The sRGB-to-linear gamma expansion applied componentwise in `rgbToXyz`:
`mix(c/12.92, ((c+0.055)/1.055)^2.4, c > 0.04045)`. -/
def srgbGamma (c : ℝ) : ℝ :=
  if 0.04045 < c then Real.rpow ((c + 0.055) / 1.055) 2.4 else c / 12.92

/-- `rgbToXyz` from the shader. The GLSL `mat3` constructor is column-major,
so the written coefficient rows act as matrix columns in the product
`rgbToXyzMatrix * linear`; the embedding reproduces that product exactly. -/
def rgbToXyz (rgb : Vec3) : Vec3 :=
  let lin : Vec3 := ⟨srgbGamma rgb.x, srgbGamma rgb.y, srgbGamma rgb.z⟩
  { x := 0.4124564 * lin.x + 0.2126729 * lin.y + 0.0193339 * lin.z
    y := 0.3575761 * lin.x + 0.7151522 * lin.y + 0.1191920 * lin.z
    z := 0.1804375 * lin.x + 0.0721750 * lin.y + 0.9503041 * lin.z }

/-- The LAB transfer function applied componentwise in `xyzToLab`:
`mix((KAPPA/116)*n + 16/116, n^(1/3), n > EPSILON)`. -/
def labF (n : ℝ) : ℝ :=
  if 0.008856 < n then Real.rpow n (1/3) else (903.3 / 116) * n + 16 / 116

/-- `xyzToLab` from the shader (D65 reference white). -/
def xyzToLab (xyz : Vec3) : Vec3 :=
  let fx := labF (xyz.x / 0.95047)
  let fy := labF (xyz.y / 1.00000)
  let fz := labF (xyz.z / 1.08883)
  { x := 116 * fy - 16
    y := 500 * (fx - fy)
    z := 200 * (fy - fz) }

/-- `rgbToLab` from the shader. -/
def rgbToLab (rgb : Vec3) : Vec3 := xyzToLab (rgbToXyz rgb)

/-- `cartesianToPolar` from the compute fragment shader: recenters `[0,1]²`
to `[-1,1]²`, returns `(radius, angle)` with the angle divided by the
shader's literal `2.0 * 3.14159265359` and wrapped to be nonnegative. -/
def cartesianToPolar (cartesian : ℝ × ℝ) : ℝ × ℝ :=
  let centered : ℝ × ℝ := (cartesian.1 * 2 - 1, cartesian.2 * 2 - 1)
  let radius := glLength2 centered
  let angle0 := glAtan2 centered.2 centered.1 / (2 * 3.14159265359)
  (radius, if angle0 < 0 then angle0 + 1 else angle0)

/-! ### Compute fragment shader (part_008): classifier -/

/-- `MAX_PALETTE_COLORS = 200`, the shader constant and (part_006 line 267)
the palette-side constant, which the source comments require to match. -/
def MAX_PALETTE_COLORS : ℕ := 200

/-- `NO_MATCHING_COLOR = 254`. -/
def NO_MATCHING_COLOR : ℤ := 254

/-- `COLOR_INDEX_SCALE = 255.0`. -/
def COLOR_INDEX_SCALE : ℝ := 255

/-- `OUTSIDE_COLOR_SPACE = vec4(0, 0, 0, 255/255)`: alpha byte 255. -/
def OUTSIDE_COLOR_SPACE_FRAG : Vec4 := ⟨0, 0, 0, 255 / COLOR_INDEX_SCALE⟩

/-- `distance2(v1, v2) = dot(v1 - v2, v1 - v2)`. -/
def distance2 (v1 v2 : Vec3) : ℝ :=
  (v1.x - v2.x) * (v1.x - v2.x) + (v1.y - v2.y) * (v1.y - v2.y) +
    (v1.z - v2.z) * (v1.z - v2.z)

/-- The per-entry squared distance computed inside the classifier loop:
`u_distanceMetric == 0` selects Delta-E (LAB) distance, anything else
selects RGB Euclidean distance. -/
def metricDistance2 (metric : ℤ) (color p : Vec3) : ℝ :=
  if metric = 0 then distance2 (rgbToLab color) (rgbToLab p) else distance2 color p

/-- One iteration of the classifier loop: accept entry `(i, p)` when its
squared distance is strictly below the running minimum. -/
def classifyStep (metric : ℤ) (color : Vec3) (s : ℤ × ℝ) (ip : ℕ × Vec3) : ℤ × ℝ :=
  if metricDistance2 metric color ip.2 < s.2 then ((ip.1 : ℤ), metricDistance2 metric color ip.2)
  else s

/-- `findClosestPaletteIndex` from the compute fragment shader: the loop
runs over at most `MAX_PALETTE_COLORS` palette entries, starting from
`closestIndex = NO_MATCHING_COLOR` and `minDistance2 = threshold²`. -/
def findClosestPaletteIndex (metric : ℤ) (threshold : ℝ) (palette : List Vec3)
    (color : Vec3) : ℤ :=
  (((palette.take MAX_PALETTE_COLORS).enum).foldl (classifyStep metric color)
    (NO_MATCHING_COLOR, threshold * threshold)).1

/-! ### Compute fragment shader (part_008): main -/

/-- The uniforms of the Pass-A compute fragment shader. These are all the
uniforms part_008 declares; in particular there is no
`u_showUnmatchedColors` uniform (canvasRenderer.js sets one, but the shader
never declares or reads it). -/
structure ComputeUniforms where
  colorSpaceIndex : ℤ
  polarAxes : ℤ × ℤ
  distanceMetric : ℤ
  distanceThreshold : ℝ
  paletteColors : List Vec3

/-- The color-computation branch of `main`: 0 = RGB identity, 1 = HSV, else HSL. -/
def computeColor (colorSpaceIndex : ℤ) (colorCoord : Vec3) : Vec3 :=
  if colorSpaceIndex = 0 then colorCoord
  else if colorSpaceIndex = 1 then hsvToRgb colorCoord.x colorCoord.y colorCoord.z
  else hslToRgb colorCoord.x colorCoord.y colorCoord.z

/-- The tail of `main` after the polar remap: compute the color, classify
it, and pack the index into the alpha channel. -/
def mainComputeTail (u : ComputeUniforms) (colorCoord : Vec3) : Vec4 :=
  let color := computeColor u.colorSpaceIndex colorCoord
  let closestIndex :=
    findClosestPaletteIndex u.distanceMetric u.distanceThreshold u.paletteColors color
  ⟨color.x, color.y, color.z, (closestIndex : ℝ) / COLOR_INDEX_SCALE⟩

/-- `main` of the Pass-A compute fragment shader: optional polar remap
(early `OUTSIDE_COLOR_SPACE` return when the radius exceeds 1, otherwise
the radius is written into component `u_polarAxes.x` and the angle into
component `u_polarAxes.y`), then color computation and classification. -/
def mainCompute (u : ComputeUniforms) (vColorCoord : Vec3) : Vec4 :=
  if 0 ≤ u.polarAxes.1 then
    if 1 < (cartesianToPolar
        (vColorCoord.get u.polarAxes.1, vColorCoord.get u.polarAxes.2)).1 then
      OUTSIDE_COLOR_SPACE_FRAG
    else
      mainComputeTail u
        ((vColorCoord.set u.polarAxes.1
            (cartesianToPolar
              (vColorCoord.get u.polarAxes.1, vColorCoord.get u.polarAxes.2)).1).set
          u.polarAxes.2
          (cartesianToPolar
            (vColorCoord.get u.polarAxes.1, vColorCoord.get u.polarAxes.2)).2)
  else mainComputeTail u vColorCoord

/-! ### Pass-B display shader (render_fragment.glsl): boundary logic -/

/-- GLSL `int(x)`: truncation toward zero. -/
def glslInt (x : ℝ) : ℤ := if x < 0 then -⌊-x⌋ else ⌊x⌋

/-- `getPaletteIndex`: recover the palette index from the alpha sample,
`int(paletteIndexFloat * 255.0 + 0.5)`. -/
def getPaletteIndex (paletteIndexFloat : ℝ) : ℤ := glslInt (paletteIndexFloat * 255 + 0.5)

/-- The uniforms of the Pass-B display shader that the boundary logic reads. -/
structure RenderUniforms where
  showBoundaries : Bool
  highlightPaletteIndex : ℤ
  highlightMode : ℤ

/-- `boundaryPaletteIndex`: inspect the left neighbor (when not at the left
edge), then the bottom neighbor (when not at the bottom edge); return the
first neighbor index that differs from the center and is not
`OUTSIDE_COLOR_SPACE` (255), else -1. The texture is the classified
framebuffer, addressed by `texelFetch`. -/
def boundaryPaletteIndex (tex : ℤ × ℤ → Vec4) (pixelCoord : ℤ × ℤ)
    (centerPaletteIndex : ℤ) : ℤ :=
  if 0 < pixelCoord.1 ∧
      getPaletteIndex (tex (pixelCoord.1 - 1, pixelCoord.2)).w ≠ centerPaletteIndex ∧
      getPaletteIndex (tex (pixelCoord.1 - 1, pixelCoord.2)).w ≠ 255 then
    getPaletteIndex (tex (pixelCoord.1 - 1, pixelCoord.2)).w
  else if 0 < pixelCoord.2 ∧
      getPaletteIndex (tex (pixelCoord.1, pixelCoord.2 - 1)).w ≠ centerPaletteIndex ∧
      getPaletteIndex (tex (pixelCoord.1, pixelCoord.2 - 1)).w ≠ 255 then
    getPaletteIndex (tex (pixelCoord.1, pixelCoord.2 - 1)).w
  else -1

/-- `showBoundary` from the display shader: highlight mode 1 is hide-other,
mode 2 is boundary-only; `u_highlightPaletteIndex` is -1 when no highlight
is active. -/
def showBoundary (u : RenderUniforms) (tex : ℤ × ℤ → Vec4) (pixelCoord : ℤ × ℤ)
    (paletteIndex : ℤ) : Bool :=
  if u.highlightMode = 1 ∧ 0 ≤ u.highlightPaletteIndex then false
  else
    let boundaryIndex := boundaryPaletteIndex tex pixelCoord paletteIndex
    if u.highlightMode = 2 ∧ 0 ≤ u.highlightPaletteIndex then
      decide (0 ≤ boundaryIndex ∧
        (boundaryIndex = u.highlightPaletteIndex ∨ paletteIndex = u.highlightPaletteIndex))
    else if u.showBoundaries then decide (0 ≤ boundaryIndex)
    else false

/-! ### Pixel oracle (canvasRenderer.js getColorAt) and palette model -/

/-- The carrier of a validated `RgbColor` (normalized coordinates). -/
structure RgbColor where
  r : ℝ
  g : ℝ
  b : ℝ

/-- The `Color` base-class constructor for 3 coordinates: it throws (here:
`none`) when any coordinate lies outside `[0, 1]`. -/
def mkRgbColor (r g b : ℝ) : Option RgbColor :=
  if 0 ≤ r ∧ r ≤ 1 ∧ 0 ≤ g ∧ g ≤ 1 ∧ 0 ≤ b ∧ b ≤ 1 then some ⟨r, g, b⟩ else none

/-- `NamedColor`: a display name together with an RGB color. -/
structure NamedColor where
  name : String
  rgbColor : RgbColor

/-- One RGBA8 pixel read back from the classified framebuffer. -/
structure Pixel where
  r : ℕ
  g : ℕ
  b : ℕ
  a : ℕ

/-- The sentinel alpha byte for "outside the color space". -/
def OUTSIDE_COLOR_SPACE : ℕ := 255

/-- `getColorAt(x, y)` from canvasRenderer.js. The framebuffer is modelled
as a function from (GL) pixel coordinates to RGBA bytes; the outer `Option`
is `none` exactly when the JS code would throw. Out-of-bounds coordinates
yield `(null, null)`; otherwise the pixel at the vertically flipped row
`height - 1 - y` is read, alpha byte 255 yields `(null, null)`, and any
other alpha byte is a palette index looked up in the palette snapshot. -/
def getColorAt (fb : ℕ → ℕ → Pixel) (width height : ℕ)
    (paletteColors : List NamedColor) (x y : ℤ) :
    Option (Option RgbColor × Option NamedColor) :=
  if x < 0 ∨ (width : ℤ) ≤ x ∨ y < 0 ∨ (height : ℤ) ≤ y then some (none, none)
  else
    let glY : ℤ := (height : ℤ) - 1 - y
    let px := fb x.toNat glY.toNat
    if px.a = OUTSIDE_COLOR_SPACE then some (none, none)
    else
      let closestColor :=
        if h : px.a < paletteColors.length then some (paletteColors.get ⟨px.a, h⟩) else none
      match mkRgbColor ((px.r : ℝ) / 255) ((px.g : ℝ) / 255) ((px.b : ℝ) / 255) with
      | none => none
      | some c => some (some c, closestColor)

/-- `ColorPalette.addColor` from colorPalette.js (part_006): refuse a falsy
color, refuse when the palette has reached `MAX_PALETTE_COLORS`, otherwise
unshift a freshly named color onto the front. The name generator
(`_generateColorName`) is passed as a parameter; the acceptance logic does
not depend on it. -/
def ColorPalette.addColor (generateColorName : List NamedColor → Option NamedColor → String)
    (colors : List NamedColor) (rgbColor : Option RgbColor)
    (closestColor : Option NamedColor) : Bool × List NamedColor :=
  match rgbColor with
  | none => (false, colors)
  | some c =>
    if MAX_PALETTE_COLORS ≤ colors.length then (false, colors)
    else (true, ⟨generateColorName colors closestColor, c⟩ :: colors)

/-! ### Shape makers (shapeMakers.js, current version): cube wireframe and
cross-sections -/

/-- One `[lo, hi]` range per axis: the `normalizedSlices` array. -/
structure AxisRanges where
  x : ℝ × ℝ
  y : ℝ × ℝ
  z : ℝ × ℝ

/-- Index a `[lo, hi]` range by a bit (JS `range[bit]`). -/
def rangePick (range : ℝ × ℝ) (bit : ℕ) : ℝ := if bit = 0 then range.1 else range.2

/-- `generateCubeCornerColors`: the 8 cube corners enumerated by 3-bit
patterns; bit k of the corner index selects hi (1) versus lo (0) of axis k. -/
def generateCubeCornerColors (normalizedSlices : AxisRanges) : List Vec3 :=
  (List.range 8).map fun i =>
    ⟨rangePick normalizedSlices.x (i &&& 1),
     rangePick normalizedSlices.y ((i &&& 2) >>> 1),
     rangePick normalizedSlices.z ((i &&& 4) >>> 2)⟩

/-- `FULL_NORMALIZED_AXES = [[0,1],[0,1],[0,1]]`. -/
def FULL_NORMALIZED_AXES : AxisRanges := ⟨(0, 1), (0, 1), (0, 1)⟩

/-- `CUBE_SIZE_3D = 1` (shapeMakers.js). -/
def CUBE_SIZE_3D : ℝ := 1

/-- `CROSS_SECTION_SCALE = 1/64`. -/
def CROSS_SECTION_SCALE : ℝ := 1 / 64

/-- `colorCoordToPosition(c, size) = (c - 0.5) * size` componentwise. -/
def colorCoordToPosition (colorCoord : Vec3) (size : ℝ) : Vec3 :=
  ⟨(colorCoord.x - 0.5) * size, (colorCoord.y - 0.5) * size, (colorCoord.z - 0.5) * size⟩

/-- `generateCubeWireframeIndices`: for each corner `i`, emit the edge to
`i XOR (1 << axis)` exactly when the axis bit of `i` is 1 (the
anti-duplication rule), for the X, Y and Z axes in that order. -/
def generateCubeWireframeIndices : List ℕ :=
  (List.range 8).foldl
    (fun indices i =>
      ((indices ++ (if i &&& 1 ≠ 0 then [i, i ^^^ 1] else []))
        ++ (if i &&& 2 ≠ 0 then [i, i ^^^ 2] else []))
        ++ (if i &&& 4 ≠ 0 then [i, i ^^^ 4] else []))
    []

/-- Group a flat index list into consecutive (start, end) line pairs, the
way `gl.LINES` and the cross-section loop consume it. -/
def pairUp : List ℕ → List (ℕ × ℕ)
  | a :: b :: rest => (a, b) :: pairUp rest
  | _ => []

/-- `generateCubeWireframe(normalizedAxisSlices)`: positions of the sliced
sub-box corners followed by the full-cube corners, and the cube edge list
emitted once for the slice block and once shifted by the slice vertex
count. Returns (vertices, indices). -/
def generateCubeWireframe (normalizedAxisSlices : AxisRanges) : List Vec3 × List ℕ :=
  let sliceCorners := generateCubeCornerColors normalizedAxisSlices
  let fullCorners := generateCubeCornerColors FULL_NORMALIZED_AXES
  let vertices := (sliceCorners ++ fullCorners).map (colorCoordToPosition · CUBE_SIZE_3D)
  let cubeIndices := generateCubeWireframeIndices
  (vertices, cubeIndices ++ cubeIndices.map (· + sliceCorners.length))

/-- A 4x4 matrix in the row/column convention `mRC`; gl-matrix stores the
same entries column-major (its `m[c*4+r]` is `mRC` here). -/
structure Mat4 where
  m00 : ℝ
  m01 : ℝ
  m02 : ℝ
  m03 : ℝ
  m10 : ℝ
  m11 : ℝ
  m12 : ℝ
  m13 : ℝ
  m20 : ℝ
  m21 : ℝ
  m22 : ℝ
  m23 : ℝ
  m30 : ℝ
  m31 : ℝ
  m32 : ℝ
  m33 : ℝ

/-- gl-matrix `vec3.transformMat4`: apply the matrix with homogeneous
coordinate 1 and divide by the resulting w (replaced by 1 when it is 0). -/
def transformMat4 (M : Mat4) (v : Vec3) : Vec3 :=
  let w0 := M.m30 * v.x + M.m31 * v.y + M.m32 * v.z + M.m33
  let w := if w0 = 0 then 1 else w0
  ⟨(M.m00 * v.x + M.m01 * v.y + M.m02 * v.z + M.m03) / w,
   (M.m10 * v.x + M.m11 * v.y + M.m12 * v.z + M.m13) / w,
   (M.m20 * v.x + M.m21 * v.y + M.m22 * v.z + M.m23) / w⟩

/-- A 4x4 rotation matrix: orthonormal 3x3 linear part with determinant 1
and trivial affine part. -/
def Mat4.isRotation (M : Mat4) : Prop :=
  (M.m00 ^ 2 + M.m10 ^ 2 + M.m20 ^ 2 = 1) ∧
  (M.m01 ^ 2 + M.m11 ^ 2 + M.m21 ^ 2 = 1) ∧
  (M.m02 ^ 2 + M.m12 ^ 2 + M.m22 ^ 2 = 1) ∧
  (M.m00 * M.m01 + M.m10 * M.m11 + M.m20 * M.m21 = 0) ∧
  (M.m00 * M.m02 + M.m10 * M.m12 + M.m20 * M.m22 = 0) ∧
  (M.m01 * M.m02 + M.m11 * M.m12 + M.m21 * M.m22 = 0) ∧
  (M.m00 * (M.m11 * M.m22 - M.m12 * M.m21)
    - M.m01 * (M.m10 * M.m22 - M.m12 * M.m20)
    + M.m02 * (M.m10 * M.m21 - M.m11 * M.m20) = 1) ∧
  M.m30 = 0 ∧ M.m31 = 0 ∧ M.m32 = 0 ∧ M.m33 = 1 ∧
  M.m03 = 0 ∧ M.m13 = 0 ∧ M.m23 = 0

/-- A concrete camera rotation: 30 degrees about the x-axis
(`cos = √3/2`, `sin = 1/2`). -/
def rotationX30 : Mat4 :=
  { m00 := 1, m01 := 0, m02 := 0, m03 := 0
    m10 := 0, m11 := Real.sqrt 3 / 2, m12 := -(1 / 2), m13 := 0
    m20 := 0, m21 := 1 / 2, m22 := Real.sqrt 3 / 2, m23 := 0
    m30 := 0, m31 := 0, m32 := 0, m33 := 1 }

/-- The identity camera rotation. -/
def identityMat4 : Mat4 :=
  { m00 := 1, m01 := 0, m02 := 0, m03 := 0
    m10 := 0, m11 := 1, m12 := 0, m13 := 0
    m20 := 0, m21 := 0, m22 := 1, m23 := 0
    m30 := 0, m31 := 0, m32 := 0, m33 := 1 }

/-- `generateCrossSections`: the transformed depth of each unit-cube corner
(`rotatedCorners[i][2]`, taking the full normalized axes the current
shapeMakers version uses). -/
def crossSectionZs (M : Mat4) : List ℝ :=
  (generateCubeCornerColors FULL_NORMALIZED_AXES).map fun corner =>
    (transformMat4 M (colorCoordToPosition corner CUBE_SIZE_3D)).z

/-- `Math.min(...zValues)` over the 8 corner depths. -/
def crossMinZ (M : Mat4) : ℝ :=
  match crossSectionZs M with
  | [] => 0
  | a :: rest => rest.foldl min a

/-- `Math.max(...zValues)` over the 8 corner depths. -/
def crossMaxZ (M : Mat4) : ℝ :=
  match crossSectionZs M with
  | [] => 0
  | a :: rest => rest.foldl max a

/-- `crossSectionWidth = CUBE_SIZE_3D * CROSS_SECTION_SCALE`. -/
def crossSectionWidth : ℝ := CUBE_SIZE_3D * CROSS_SECTION_SCALE

/-- The plane depth of loop iteration `k` of `generateCrossSections`: the
loop variable starts at `minZ + crossSectionWidth` and advances by
`crossSectionWidth`. -/
def crossPlaneZ (M : Mat4) (k : ℕ) : ℝ := crossMinZ M + ((k : ℝ) + 1) * crossSectionWidth

/-- The cube edge list the cross-section loop walks, as (start, end)
corner index pairs. -/
def cubeEdges : List (ℕ × ℕ) := pairUp generateCubeWireframeIndices

/-- The transformed depth of an edge endpoint (`zValues[index]`). -/
def edgeZ (M : Mat4) (index : ℕ) : ℝ := (crossSectionZs M).getD index 0

/-- The edge-crossing test of `generateCrossSections`:
`(startZ <= z && endZ >= z) || (startZ >= z && endZ <= z)`. -/
def edgeCrossesPlane (M : Mat4) (zPlane : ℝ) (e : ℕ × ℕ) : Prop :=
  (edgeZ M e.1 ≤ zPlane ∧ zPlane ≤ edgeZ M e.2) ∨
  (edgeZ M e.2 ≤ zPlane ∧ zPlane ≤ edgeZ M e.1)

/-- Loop iteration `k` of `generateCrossSections` emits a vertex for cube
edge `e`: the plane is still below `maxZ` (the loop guard) and the
edge-crossing test accepts. -/
def crossSectionEmits (M : Mat4) (k : ℕ) (e : ℕ × ℕ) : Prop :=
  crossPlaneZ M k < crossMaxZ M ∧ e ∈ cubeEdges ∧ edgeCrossesPlane M (crossPlaneZ M k) e

/-- The interpolation parameter `t = (z - startZ) / (endZ - startZ)` used
for the emitted cross-section vertex. -/
def crossSectionT (M : Mat4) (k : ℕ) (e : ℕ × ℕ) : ℝ :=
  (crossPlaneZ M k - edgeZ M e.1) / (edgeZ M e.2 - edgeZ M e.1)

/-! ### Axis-slice normalization (canvasRenderer.js) -/

/-- An `Axis` record from colorSpace.js; the constructor always sets
`min = 0`. -/
structure Axis where
  key : String
  unit : String
  max : ℚ
  defaultValue : ℚ
  min : ℚ
deriving DecidableEq

/-- The `Axis` constructor: `min` is always 0. -/
def Axis.make (key unit : String) (max defaultValue : ℚ) : Axis :=
  ⟨key, unit, max, defaultValue, 0⟩

/-- `_normalizedAxisSlices(colorSpace, axisSlices)`: for each axis of the
color space in order, take its `[lo, hi]` slice from the map, defaulting to
the full `[min, max]` range when absent, and normalize both endpoints by
`(v - min) / (max - min)`. The JS `Map` is modelled as a partial function
on axes. -/
def normalizedAxisSlices (axes : List Axis) (axisSlices : Axis → Option (ℚ × ℚ)) :
    List (ℚ × ℚ) :=
  axes.map fun axis =>
    let range := (axisSlices axis).getD (axis.min, axis.max)
    let fullRange := axis.max - axis.min
    ((range.1 - axis.min) / fullRange, (range.2 - axis.min) / fullRange)

/-! ## Classifier lemmas -/

theorem distance2_nonneg (v w : Vec3) : 0 ≤ distance2 v w := by
  unfold distance2
  nlinarith [sq_nonneg (v.x - w.x), sq_nonneg (v.y - w.y), sq_nonneg (v.z - w.z)]

theorem distance2_self (v : Vec3) : distance2 v v = 0 := by
  unfold distance2; ring

theorem metricDistance2_nonneg (metric : ℤ) (c p : Vec3) :
    0 ≤ metricDistance2 metric c p := by
  unfold metricDistance2
  split <;> exact distance2_nonneg _ _

theorem metricDistance2_self (metric : ℤ) (c : Vec3) : metricDistance2 metric c c = 0 := by
  unfold metricDistance2
  split <;> exact distance2_self _

/-- If no remaining entry beats the running minimum strictly, the classifier
fold leaves its state unchanged. -/
theorem classifyFold_no_update (metric : ℤ) (color : Vec3) (L : List Vec3) (n : ℕ)
    (c0 : ℤ) (m0 : ℝ) (h : ∀ p ∈ L, m0 ≤ metricDistance2 metric color p) :
    (List.enumFrom n L).foldl (classifyStep metric color) (c0, m0) = (c0, m0) := by
  induction L generalizing n with
  | nil => rfl
  | cons a L ih =>
    have ha : ¬ metricDistance2 metric color a < m0 :=
      not_lt.mpr (h a (List.mem_cons_self a L))
    have hstep : classifyStep metric color (c0, m0) (n, a) = (c0, m0) := by
      unfold classifyStep
      exact if_neg ha
    show List.foldl _ (classifyStep metric color (c0, m0) (n, a)) (List.enumFrom (n + 1) L)
        = (c0, m0)
    rw [hstep]
    exact ih (n + 1) (fun p hp => h p (List.mem_cons_of_mem a hp))

/-- If some remaining entry beats the running minimum strictly, the
classifier fold ends at the first index attaining the minimum squared
distance over the remaining entries. -/
theorem classifyFold_argmin (metric : ℤ) (color : Vec3) (L : List Vec3) :
    ∀ (n : ℕ) (c0 : ℤ) (m0 : ℝ),
    (∃ p ∈ L, metricDistance2 metric color p < m0) →
    ∃ j : Fin L.length,
      ((List.enumFrom n L).foldl (classifyStep metric color) (c0, m0)).1
        = ((n + (j : ℕ) : ℕ) : ℤ) ∧
      metricDistance2 metric color (L.get j) < m0 ∧
      (∀ k : Fin L.length,
        metricDistance2 metric color (L.get j) ≤ metricDistance2 metric color (L.get k)) ∧
      (∀ k : Fin L.length, (k : ℕ) < (j : ℕ) →
        metricDistance2 metric color (L.get j) < metricDistance2 metric color (L.get k)) := by
  induction L with
  | nil => intro n c0 m0 hex; obtain ⟨p, hp, _⟩ := hex; exact absurd hp (List.not_mem_nil p)
  | cons a L ih =>
    intro n c0 m0 hex
    by_cases hda : metricDistance2 metric color a < m0
    · have hstep : classifyStep metric color (c0, m0) (n, a)
          = ((n : ℤ), metricDistance2 metric color a) := by
        unfold classifyStep
        exact if_pos hda
      have hfold :
          (List.enumFrom n (a :: L)).foldl (classifyStep metric color) (c0, m0)
            = (List.enumFrom (n + 1) L).foldl (classifyStep metric color)
                ((n : ℤ), metricDistance2 metric color a) := by
        show List.foldl _ (classifyStep metric color (c0, m0) (n, a)) _ = _
        rw [hstep]
      by_cases htail : ∃ p ∈ L, metricDistance2 metric color p < metricDistance2 metric color a
      · obtain ⟨j, hj1, hj2, hj3, hj4⟩ :=
          ih (n + 1) (n : ℤ) (metricDistance2 metric color a) htail
        refine ⟨⟨(j : ℕ) + 1, by simp⟩, ?_, ?_, ?_, ?_⟩
        · rw [hfold, hj1]
          push_cast
          ring
        · show metricDistance2 metric color (L.get j) < m0
          exact lt_trans hj2 hda
        · intro k
          rcases k with ⟨kv, hk⟩
          match kv, hk with
          | 0, hk =>
            show metricDistance2 metric color (L.get j) ≤ metricDistance2 metric color a
            exact le_of_lt hj2
          | kv + 1, hk =>
            have hkL : kv < L.length := by simp only [List.length_cons] at hk; omega
            show metricDistance2 metric color (L.get j)
              ≤ metricDistance2 metric color (L.get ⟨kv, hkL⟩)
            exact hj3 ⟨kv, hkL⟩
        · intro k hklt
          rcases k with ⟨kv, hk⟩
          match kv, hk, hklt with
          | 0, hk, hklt =>
            show metricDistance2 metric color (L.get j) < metricDistance2 metric color a
            exact hj2
          | kv + 1, hk, hklt =>
            have hkL : kv < L.length := by simp only [List.length_cons] at hk; omega
            have hlt : kv + 1 < (j : ℕ) + 1 := hklt
            show metricDistance2 metric color (L.get j)
              < metricDistance2 metric color (L.get ⟨kv, hkL⟩)
            refine hj4 ⟨kv, hkL⟩ ?_
            show kv < (j : ℕ)
            omega
      · push_neg at htail
        have hrest :
            (List.enumFrom (n + 1) L).foldl (classifyStep metric color)
              ((n : ℤ), metricDistance2 metric color a)
              = ((n : ℤ), metricDistance2 metric color a) :=
          classifyFold_no_update metric color L (n + 1) (n : ℤ)
            (metricDistance2 metric color a) htail
        refine ⟨⟨0, by simp⟩, ?_, hda, ?_, ?_⟩
        · rw [hfold, hrest]
          simp
        · intro k
          rcases k with ⟨kv, hk⟩
          match kv, hk with
          | 0, hk => exact le_refl _
          | kv + 1, hk =>
            have hkL : kv < L.length := by simp only [List.length_cons] at hk; omega
            show metricDistance2 metric color a
              ≤ metricDistance2 metric color (L.get ⟨kv, hkL⟩)
            exact htail _ (List.get_mem L _ _)
        · intro k hklt
          have h0 : (k : ℕ) < 0 := hklt
          exact absurd h0 (Nat.not_lt_zero _)
    · have hm0 : m0 ≤ metricDistance2 metric color a := not_lt.mp hda
      have hex2 : ∃ p ∈ L, metricDistance2 metric color p < m0 := by
        obtain ⟨p, hp, hdp⟩ := hex
        rcases List.mem_cons.mp hp with rfl | hmem
        · exact absurd hdp hda
        · exact ⟨p, hmem, hdp⟩
      have hstep : classifyStep metric color (c0, m0) (n, a) = (c0, m0) := by
        unfold classifyStep
        exact if_neg hda
      have hfold :
          (List.enumFrom n (a :: L)).foldl (classifyStep metric color) (c0, m0)
            = (List.enumFrom (n + 1) L).foldl (classifyStep metric color) (c0, m0) := by
        show List.foldl _ (classifyStep metric color (c0, m0) (n, a)) _ = _
        rw [hstep]
      obtain ⟨j, hj1, hj2, hj3, hj4⟩ := ih (n + 1) c0 m0 hex2
      refine ⟨⟨(j : ℕ) + 1, by simp⟩, ?_, ?_, ?_, ?_⟩
      · rw [hfold, hj1]
        push_cast
        ring
      · exact hj2
      · intro k
        rcases k with ⟨kv, hk⟩
        match kv, hk with
        | 0, hk =>
          show metricDistance2 metric color (L.get j) ≤ metricDistance2 metric color a
          exact le_trans (le_of_lt hj2) hm0
        | kv + 1, hk =>
          have hkL : kv < L.length := by simp only [List.length_cons] at hk; omega
          show metricDistance2 metric color (L.get j)
            ≤ metricDistance2 metric color (L.get ⟨kv, hkL⟩)
          exact hj3 ⟨kv, hkL⟩
      · intro k hklt
        rcases k with ⟨kv, hk⟩
        match kv, hk, hklt with
        | 0, hk, hklt =>
          show metricDistance2 metric color (L.get j) < metricDistance2 metric color a
          exact lt_of_lt_of_le hj2 hm0
        | kv + 1, hk, hklt =>
          have hkL : kv < L.length := by simp only [List.length_cons] at hk; omega
          have hlt : kv + 1 < (j : ℕ) + 1 := hklt
          show metricDistance2 metric color (L.get j)
            < metricDistance2 metric color (L.get ⟨kv, hkL⟩)
          refine hj4 ⟨kv, hkL⟩ ?_
          show kv < (j : ℕ)
          omega

/-! ## Claim C1: classifier postcondition -/

/-- The full behaviour of `findClosestPaletteIndex` on palettes that fit
the palette uniform: `NO_MATCH` when no entry is strictly within the
threshold, else the first index attaining the minimum squared distance. -/
theorem findClosestPaletteIndex_spec (metric : ℤ) (threshold : ℝ) (palette : List Vec3)
    (color : Vec3) (hlen : palette.length ≤ MAX_PALETTE_COLORS) :
    ((∀ p ∈ palette, threshold * threshold ≤ metricDistance2 metric color p) →
      findClosestPaletteIndex metric threshold palette color = NO_MATCHING_COLOR) ∧
    ((∃ p ∈ palette, metricDistance2 metric color p < threshold * threshold) →
      ∃ j : Fin palette.length,
        findClosestPaletteIndex metric threshold palette color = ((j : ℕ) : ℤ) ∧
        metricDistance2 metric color (palette.get j) < threshold * threshold ∧
        (∀ k : Fin palette.length,
          metricDistance2 metric color (palette.get j)
            ≤ metricDistance2 metric color (palette.get k)) ∧
        (∀ k : Fin palette.length, (k : ℕ) < (j : ℕ) →
          metricDistance2 metric color (palette.get j)
            < metricDistance2 metric color (palette.get k))) := by
  have htake : palette.take MAX_PALETTE_COLORS = palette := List.take_of_length_le hlen
  have henum : (palette.take MAX_PALETTE_COLORS).enum = List.enumFrom 0 palette := by
    rw [htake]; rfl
  constructor
  · intro hall
    unfold findClosestPaletteIndex
    rw [henum, classifyFold_no_update metric color palette 0 NO_MATCHING_COLOR
      (threshold * threshold) hall]
  · intro hex
    obtain ⟨j, hj1, hj2, hj3, hj4⟩ :=
      classifyFold_argmin metric color palette 0 NO_MATCHING_COLOR
        (threshold * threshold) hex
    refine ⟨j, ?_, hj2, hj3, hj4⟩
    unfold findClosestPaletteIndex
    rw [henum, hj1]
    simp

/-- C1 (amended): for every RGB color, palette (of at most the 200 entries
the shader's palette uniform can hold), metric and threshold `t`: if no
palette entry lies at squared distance strictly below `t²` — in particular
if the palette is empty — the classifier returns `NO_MATCH = 254`;
otherwise it returns the smallest index attaining the minimum squared
distance (ties broken by lowest index). For `t ≥ 0` and distances
`d = √d²`, "some entry has `d² < t²`" is exactly "`d_min < t`": the
original claim's boundary case `d_min = t` returns `NO_MATCH`, not the
argmin index (see the counterexample). -/
theorem C1_classifier_postcondition (metric : ℤ) (threshold : ℝ) (palette : List Vec3)
    (color : Vec3) (hlen : palette.length ≤ MAX_PALETTE_COLORS) :
    ((∀ p ∈ palette, threshold * threshold ≤ metricDistance2 metric color p) →
      findClosestPaletteIndex metric threshold palette color = NO_MATCHING_COLOR) ∧
    ((∃ p ∈ palette, metricDistance2 metric color p < threshold * threshold) →
      ∃ j : Fin palette.length,
        findClosestPaletteIndex metric threshold palette color = ((j : ℕ) : ℤ) ∧
        metricDistance2 metric color (palette.get j) < threshold * threshold ∧
        (∀ k : Fin palette.length,
          metricDistance2 metric color (palette.get j)
            ≤ metricDistance2 metric color (palette.get k)) ∧
        (∀ k : Fin palette.length, (k : ℕ) < (j : ℕ) →
          metricDistance2 metric color (palette.get j)
            < metricDistance2 metric color (palette.get k))) :=
  findClosestPaletteIndex_spec metric threshold palette color hlen

/-- C1 counterexample: with the RGB-Euclidean metric, color `(0,0,0)`,
palette `[(1,0,0)]` and threshold `1`, the single entry lies at distance
exactly `1 = threshold` (so the claim's `d > t` test fails and it demands
the argmin index 0), yet the classifier returns `NO_MATCH = 254`. -/
theorem C1_counterexample :
    metricDistance2 1 ⟨0, 0, 0⟩ ⟨1, 0, 0⟩ = 1 * 1 ∧
    findClosestPaletteIndex 1 1 [⟨1, 0, 0⟩] ⟨0, 0, 0⟩ = NO_MATCHING_COLOR ∧
    NO_MATCHING_COLOR ≠ 0 := by
  refine ⟨by norm_num [metricDistance2, distance2], ?_, by norm_num [NO_MATCHING_COLOR]⟩
  unfold findClosestPaletteIndex
  rw [List.take_of_length_le (by norm_num [MAX_PALETTE_COLORS])]
  have henum : ([⟨1, 0, 0⟩] : List Vec3).enum = [(0, (⟨1, 0, 0⟩ : Vec3))] := rfl
  rw [henum, List.foldl_cons, List.foldl_nil]
  unfold classifyStep
  rw [if_neg (by norm_num [metricDistance2, distance2])]

/-- C1 witness: the first conjunct of the postcondition applied at a
concrete input: color `(0,0,0)`, palette `[(1,0,0)]`, threshold `1/2`;
every entry is at least `1/4` away in squared distance, so the result is
`NO_MATCH`. -/
theorem C1_witness :
    ([⟨1, 0, 0⟩] : List Vec3).length ≤ MAX_PALETTE_COLORS ∧
    findClosestPaletteIndex 1 (1/2) [⟨1, 0, 0⟩] ⟨0, 0, 0⟩ = NO_MATCHING_COLOR := by
  refine ⟨by norm_num [MAX_PALETTE_COLORS], ?_⟩
  refine (C1_classifier_postcondition 1 (1/2) [⟨1, 0, 0⟩] ⟨0, 0, 0⟩
    (by norm_num [MAX_PALETTE_COLORS])).1 ?_
  intro p hp
  rw [List.mem_singleton.mp hp]
  norm_num [metricDistance2, distance2]

/-! ## Claim C5: classifier idempotence -/

/-- C5 (amended): for every metric, every strictly positive threshold,
every palette of at most 200 entries and every index `i` whose entry is
not at metric-distance 0 from any earlier entry (in particular whenever
the entries are pairwise distinct), classifying the exact RGB value of
palette entry `i` returns `i`. The original claim allowed `t = 0` (see
the counterexample: the entry's own distance 0 is not strictly below
`0² = 0`, so `NO_MATCH` is returned). -/
theorem C5_classifier_idempotence (metric : ℤ) (threshold : ℝ) (ht : 0 < threshold)
    (palette : List Vec3) (hlen : palette.length ≤ MAX_PALETTE_COLORS)
    (i : Fin palette.length)
    (hdistinct : ∀ k : Fin palette.length, (k : ℕ) < (i : ℕ) →
      metricDistance2 metric (palette.get i) (palette.get k) ≠ 0) :
    findClosestPaletteIndex metric threshold palette (palette.get i) = ((i : ℕ) : ℤ) := by
  have hself : metricDistance2 metric (palette.get i) (palette.get i) = 0 :=
    metricDistance2_self metric _
  have hex : ∃ p ∈ palette, metricDistance2 metric (palette.get i) p
      < threshold * threshold := by
    refine ⟨palette.get i, List.get_mem palette _ _, ?_⟩
    rw [hself]
    exact mul_pos ht ht
  obtain ⟨j, hj1, _, hj3, hj4⟩ :=
    (findClosestPaletteIndex_spec metric threshold palette (palette.get i) hlen).2 hex
  have hj0 : metricDistance2 metric (palette.get i) (palette.get j) = 0 := by
    have hle := hj3 i
    rw [hself] at hle
    exact le_antisymm hle (metricDistance2_nonneg metric _ _)
  have hij : (j : ℕ) = (i : ℕ) := by
    rcases Nat.lt_trichotomy (j : ℕ) (i : ℕ) with hlt | heq | hgt
    · exact absurd hj0 (hdistinct j hlt)
    · exact heq
    · have := hj4 i hgt
      rw [hself, hj0] at this
      exact absurd this (lt_irrefl 0)
  rw [hj1, hij]

/-- C5 counterexample: with threshold `t = 0` (allowed by the claim's
`t ≥ 0`), nonempty palette `[(1,0,0)]` and the RGB-Euclidean metric,
classifying palette entry 0 returns `NO_MATCH = 254`, not 0: the entry's
own squared distance 0 is not strictly below `0² = 0`. -/
theorem C5_counterexample :
    findClosestPaletteIndex 1 0 [⟨1, 0, 0⟩] ⟨1, 0, 0⟩ = NO_MATCHING_COLOR ∧
    NO_MATCHING_COLOR ≠ ((0 : ℕ) : ℤ) := by
  refine ⟨?_, by norm_num [NO_MATCHING_COLOR]⟩
  unfold findClosestPaletteIndex
  rw [List.take_of_length_le (by norm_num [MAX_PALETTE_COLORS])]
  have henum : ([⟨1, 0, 0⟩] : List Vec3).enum = [(0, (⟨1, 0, 0⟩ : Vec3))] := rfl
  rw [henum, List.foldl_cons, List.foldl_nil]
  unfold classifyStep
  rw [if_neg (by norm_num [metricDistance2, distance2])]

/-! ## Claim C2: Pass-A culling of unmatched fragments -/

/-- C2 (code evaluated at the failing input): a Pass-A fragment whose
classifier result is `NO_MATCH` (here: RGB space, coordinate `(0,0,0)`,
empty palette) is written to the classified framebuffer with alpha byte
254, not 255. The compute fragment shader (part_008) declares no
`u_showUnmatchedColors` uniform at all — canvasRenderer.js sets one, but
the shader never reads it — so the emitted alpha is `254/255` for every
value of `show_unmatched`, contradicting the claimed culling rule. -/
theorem C2_unmatched_fragment_alpha :
    mainCompute
        { colorSpaceIndex := 0, polarAxes := (-1, -1), distanceMetric := 1,
          distanceThreshold := 1, paletteColors := [] } ⟨0, 0, 0⟩
      = ⟨0, 0, 0, (254 : ℝ) / 255⟩ ∧
    ((254 : ℝ) / 255) ≠ (255 : ℝ) / 255 := by
  constructor
  · unfold mainCompute
    rw [if_neg (by norm_num)]
    unfold mainComputeTail computeColor findClosestPaletteIndex
    norm_num [NO_MATCHING_COLOR, COLOR_INDEX_SCALE]
  · norm_num

/-! ## Claim C4: polar remap in Pass A -/

/-- C4: for every fragment with polar axes enabled (`u_polarAxes.x >= 0`),
letting `(radius, angle)` be the polar coordinates of the two polar-axis
components `v` remapped by `v_centered = v*2 - 1`: if `radius > 1` the
fragment is emitted as `OUTSIDE_COLOR_SPACE` (alpha byte 255) and no color
is computed; otherwise the shader proceeds with `radius` written into the
radial-axis component and `angle` into the angular-axis component. The
radius is the nonnegative square root of `|v_centered|²`, and the angle —
`atan2` divided by the shader's two-pi literal and wrapped — always lands
in `[0, 1)`. -/
theorem C4_polar_remap (u : ComputeUniforms) (v : Vec3) (hp : 0 ≤ u.polarAxes.1) :
    (1 < (cartesianToPolar (v.get u.polarAxes.1, v.get u.polarAxes.2)).1 →
      mainCompute u v = OUTSIDE_COLOR_SPACE_FRAG) ∧
    ((cartesianToPolar (v.get u.polarAxes.1, v.get u.polarAxes.2)).1 ≤ 1 →
      mainCompute u v
        = mainComputeTail u
            ((v.set u.polarAxes.1
                (cartesianToPolar (v.get u.polarAxes.1, v.get u.polarAxes.2)).1).set
              u.polarAxes.2
              (cartesianToPolar (v.get u.polarAxes.1, v.get u.polarAxes.2)).2)) ∧
    0 ≤ (cartesianToPolar (v.get u.polarAxes.1, v.get u.polarAxes.2)).1 ∧
    (cartesianToPolar (v.get u.polarAxes.1, v.get u.polarAxes.2)).1 ^ 2
      = (v.get u.polarAxes.1 * 2 - 1) ^ 2 + (v.get u.polarAxes.2 * 2 - 1) ^ 2 ∧
    0 ≤ (cartesianToPolar (v.get u.polarAxes.1, v.get u.polarAxes.2)).2 ∧
    (cartesianToPolar (v.get u.polarAxes.1, v.get u.polarAxes.2)).2 < 1 := by
  have hradius : (cartesianToPolar (v.get u.polarAxes.1, v.get u.polarAxes.2)).1
      = Real.sqrt ((v.get u.polarAxes.1 * 2 - 1) * (v.get u.polarAxes.1 * 2 - 1)
          + (v.get u.polarAxes.2 * 2 - 1) * (v.get u.polarAxes.2 * 2 - 1)) := rfl
  have hangle : (cartesianToPolar (v.get u.polarAxes.1, v.get u.polarAxes.2)).2
      = (if glAtan2 (v.get u.polarAxes.2 * 2 - 1) (v.get u.polarAxes.1 * 2 - 1)
            / (2 * 3.14159265359) < 0 then
          glAtan2 (v.get u.polarAxes.2 * 2 - 1) (v.get u.polarAxes.1 * 2 - 1)
            / (2 * 3.14159265359) + 1
        else
          glAtan2 (v.get u.polarAxes.2 * 2 - 1) (v.get u.polarAxes.1 * 2 - 1)
            / (2 * 3.14159265359)) := rfl
  have hc : (0 : ℝ) < 2 * 3.14159265359 := by norm_num
  have hpi : Real.pi < 2 * 3.14159265359 := by
    have h := Real.pi_lt_d6
    norm_num at h ⊢
    linarith
  have harg_le : glAtan2 (v.get u.polarAxes.2 * 2 - 1) (v.get u.polarAxes.1 * 2 - 1)
      ≤ Real.pi := Complex.arg_le_pi _
  have harg_gt : -Real.pi
      < glAtan2 (v.get u.polarAxes.2 * 2 - 1) (v.get u.polarAxes.1 * 2 - 1) :=
    Complex.neg_pi_lt_arg _
  have hang_lt :
      glAtan2 (v.get u.polarAxes.2 * 2 - 1) (v.get u.polarAxes.1 * 2 - 1)
        / (2 * 3.14159265359) < 1 :=
    (div_lt_one hc).mpr (lt_of_le_of_lt harg_le hpi)
  have hang_gt : (-1 : ℝ)
      < glAtan2 (v.get u.polarAxes.2 * 2 - 1) (v.get u.polarAxes.1 * 2 - 1)
        / (2 * 3.14159265359) := by
    rw [lt_div_iff₀ hc]
    nlinarith [Real.pi_pos]
  refine ⟨?_, ?_, ?_, ?_, ?_, ?_⟩
  · intro h1
    unfold mainCompute
    rw [if_pos hp, if_pos h1]
  · intro h1
    unfold mainCompute
    rw [if_pos hp, if_neg (not_lt.mpr h1)]
  · rw [hradius]
    exact Real.sqrt_nonneg _
  · have hnn : 0 ≤ (v.get u.polarAxes.1 * 2 - 1) * (v.get u.polarAxes.1 * 2 - 1)
        + (v.get u.polarAxes.2 * 2 - 1) * (v.get u.polarAxes.2 * 2 - 1) := by
      nlinarith [sq_nonneg (v.get u.polarAxes.1 * 2 - 1),
        sq_nonneg (v.get u.polarAxes.2 * 2 - 1)]
    rw [hradius, Real.sq_sqrt hnn]
    ring
  · rw [hangle]
    split_ifs with h
    · linarith
    · exact not_lt.mp h
  · rw [hangle]
    split_ifs with h
    · linarith
    · exact hang_lt

/-- C4 witness: the polar remap theorem applied at a concrete input: polar
axes `(0, 1)` and coordinate `(1, 1, 0)`, whose centered polar-plane
point `(1, 1)` has radius `√2 > 1`, so the fragment is emitted as
`OUTSIDE_COLOR_SPACE`. -/
theorem C4_witness :
    (0 : ℤ) ≤ ((0, 1) : ℤ × ℤ).1 ∧
    mainCompute ⟨0, (0, 1), 1, 1, []⟩ ⟨1, 1, 0⟩ = OUTSIDE_COLOR_SPACE_FRAG := by
  refine ⟨le_refl 0, ?_⟩
  refine (C4_polar_remap ⟨0, (0, 1), 1, 1, []⟩ ⟨1, 1, 0⟩ (by norm_num)).1 ?_
  have hget1 : (⟨1, 1, 0⟩ : Vec3).get ((0, 1) : ℤ × ℤ).1 = 1 := rfl
  have hget2 : (⟨1, 1, 0⟩ : Vec3).get ((0, 1) : ℤ × ℤ).2 = 1 := rfl
  have hr : (cartesianToPolar ((⟨1, 1, 0⟩ : Vec3).get ((0, 1) : ℤ × ℤ).1,
      (⟨1, 1, 0⟩ : Vec3).get ((0, 1) : ℤ × ℤ).2)).1
      = Real.sqrt ((1 * 2 - 1) * (1 * 2 - 1) + (1 * 2 - 1) * (1 * 2 - 1)) := by
    rw [hget1, hget2]
    rfl
  rw [hr]
  have h2 : ((1 : ℝ) * 2 - 1) * (1 * 2 - 1) + (1 * 2 - 1) * (1 * 2 - 1) = 2 := by norm_num
  rw [h2]
  rw [show (1 : ℝ) = Real.sqrt 1 by simp]
  exact Real.sqrt_lt_sqrt (by norm_num) (by norm_num)

/-- C5 witness: the idempotence theorem applied at a concrete input:
palette `[(1,0,0)]`, index 0, RGB-Euclidean metric, threshold 1. -/
theorem C5_witness :
    (0 : ℝ) < 1 ∧
    findClosestPaletteIndex 1 1 [⟨1, 0, 0⟩]
      (([⟨1, 0, 0⟩] : List Vec3).get ⟨0, by norm_num⟩) = ((0 : ℕ) : ℤ) := by
  refine ⟨by norm_num, ?_⟩
  have h := C5_classifier_idempotence 1 1 (by norm_num) [⟨1, 0, 0⟩]
    (by norm_num [MAX_PALETTE_COLORS]) ⟨0, by norm_num⟩
    (fun k hk => absurd hk (Nat.not_lt_zero _))
  simpa using h

/-! ## Claim C3: pixel-oracle postcondition -/

/-- C3: assuming the framebuffer holds 8-bit color channels (readPixels
returns bytes), `getColorAt` never throws and returns: `(null, null)` for
coordinates outside the canvas bounds; otherwise, reading the RGBA pixel at
`(x, height-1-y)`, `(null, null)` when the alpha byte is 255, and otherwise
`(RgbColor(r/255, g/255, b/255), palette[idx])` when `idx = alpha` is in
palette range, `(RgbColor(..), null)` when it is not. -/
theorem C3_getColorAt_postcondition (fb : ℕ → ℕ → Pixel) (width height : ℕ)
    (palette : List NamedColor) (x y : ℤ)
    (hfb : ∀ i j, (fb i j).r ≤ 255 ∧ (fb i j).g ≤ 255 ∧ (fb i j).b ≤ 255) :
    (getColorAt fb width height palette x y).isSome = true ∧
    ((x < 0 ∨ (width : ℤ) ≤ x ∨ y < 0 ∨ (height : ℤ) ≤ y) →
      getColorAt fb width height palette x y = some (none, none)) ∧
    (0 ≤ x → x < (width : ℤ) → 0 ≤ y → y < (height : ℤ) →
      ∀ px : Pixel, px = fb x.toNat ((height : ℤ) - 1 - y).toNat →
        (px.a = 255 → getColorAt fb width height palette x y = some (none, none)) ∧
        (px.a ≠ 255 →
          getColorAt fb width height palette x y
            = some (some ⟨(px.r : ℝ) / 255, (px.g : ℝ) / 255, (px.b : ℝ) / 255⟩,
                if h : px.a < palette.length then some (palette.get ⟨px.a, h⟩)
                else none))) := by
  by_cases hb : x < 0 ∨ (width : ℤ) ≤ x ∨ y < 0 ∨ (height : ℤ) ≤ y
  · have hout : getColorAt fb width height palette x y = some (none, none) := by
      unfold getColorAt
      rw [if_pos hb]
    refine ⟨by rw [hout]; rfl, fun _ => hout, ?_⟩
    intro hx1 hx2 hy1 hy2 px hpx
    rcases hb with h | h | h | h <;> omega
  · have hbytes := hfb x.toNat ((height : ℤ) - 1 - y).toNat
    have hsome : mkRgbColor
        ((fb x.toNat ((height : ℤ) - 1 - y).toNat).r / 255 : ℝ)
        ((fb x.toNat ((height : ℤ) - 1 - y).toNat).g / 255 : ℝ)
        ((fb x.toNat ((height : ℤ) - 1 - y).toNat).b / 255 : ℝ)
        = some ⟨((fb x.toNat ((height : ℤ) - 1 - y).toNat).r : ℝ) / 255,
                ((fb x.toNat ((height : ℤ) - 1 - y).toNat).g : ℝ) / 255,
                ((fb x.toNat ((height : ℤ) - 1 - y).toNat).b : ℝ) / 255⟩ := by
      have hr : ((fb x.toNat ((height : ℤ) - 1 - y).toNat).r : ℝ) ≤ 255 := by
        exact_mod_cast Nat.cast_le.mpr hbytes.1
      have hg : ((fb x.toNat ((height : ℤ) - 1 - y).toNat).g : ℝ) ≤ 255 := by
        exact_mod_cast Nat.cast_le.mpr hbytes.2.1
      have hbb : ((fb x.toNat ((height : ℤ) - 1 - y).toNat).b : ℝ) ≤ 255 := by
        exact_mod_cast Nat.cast_le.mpr hbytes.2.2
      unfold mkRgbColor
      rw [if_pos]
      refine ⟨by positivity, by rw [div_le_one (by norm_num)]; linarith,
        by positivity, by rw [div_le_one (by norm_num)]; linarith,
        by positivity, by rw [div_le_one (by norm_num)]; linarith⟩
    by_cases ha : (fb x.toNat ((height : ℤ) - 1 - y).toNat).a = OUTSIDE_COLOR_SPACE
    · have hval : getColorAt fb width height palette x y = some (none, none) := by
        unfold getColorAt
        rw [if_neg hb, if_pos ha]
      refine ⟨by rw [hval]; rfl, fun h => absurd h hb, ?_⟩
      intro hx1 hx2 hy1 hy2 px hpx
      subst hpx
      refine ⟨fun _ => hval, fun hne => absurd ?_ hne⟩
      simpa [OUTSIDE_COLOR_SPACE] using ha
    · have hval : getColorAt fb width height palette x y
          = some (some ⟨((fb x.toNat ((height : ℤ) - 1 - y).toNat).r : ℝ) / 255,
                ((fb x.toNat ((height : ℤ) - 1 - y).toNat).g : ℝ) / 255,
                ((fb x.toNat ((height : ℤ) - 1 - y).toNat).b : ℝ) / 255⟩,
              if h : (fb x.toNat ((height : ℤ) - 1 - y).toNat).a < palette.length
              then some (palette.get ⟨(fb x.toNat ((height : ℤ) - 1 - y).toNat).a, h⟩)
              else none) := by
        unfold getColorAt
        rw [if_neg hb, if_neg ha, hsome]
      refine ⟨by rw [hval]; rfl, fun h => absurd h hb, ?_⟩
      intro hx1 hx2 hy1 hy2 px hpx
      subst hpx
      refine ⟨fun h => absurd ?_ ha, fun _ => hval⟩
      simpa [OUTSIDE_COLOR_SPACE] using h

/-- C3 witness: the postcondition applied at a concrete input: a 1x1
canvas whose single pixel is `(255, 0, 0, 0)` and a one-entry palette;
`getColorAt 0 0` returns the decoded red color and the palette entry. -/
theorem C3_witness :
    getColorAt (fun _ _ => ⟨255, 0, 0, 0⟩) 1 1 [⟨"red", ⟨1, 0, 0⟩⟩] 0 0
      = some (some ⟨(255 : ℝ) / 255, (0 : ℝ) / 255, (0 : ℝ) / 255⟩,
          some ⟨"red", ⟨1, 0, 0⟩⟩) := by
  have h := (C3_getColorAt_postcondition (fun _ _ => ⟨255, 0, 0, 0⟩) 1 1
    [⟨"red", ⟨1, 0, 0⟩⟩] 0 0
    (fun i j => by exact ⟨by norm_num, by norm_num, by norm_num⟩)).2.2
    (by norm_num) (by norm_num) (by norm_num) (by norm_num)
    ⟨255, 0, 0, 0⟩ rfl
  have h2 := h.2 (by norm_num)
  rw [h2]
  norm_num

/-! ## Claim C6: palette size limit -/

/-- C6 (amended): for a valid (non-null) color, `ColorPalette.addColor`
refuses — returns `false` — precisely when the palette already holds at
least `MAX_PALETTE_COLORS = 200` entries, and every palette of fewer than
200 entries accepts the color (unshifted onto the front). The claimed
limit of 254 entries is the capacity of the alpha-byte index encoding,
but the code's limit is the `MAX_PALETTE_COLORS = 200` constant (see the
counterexample at exactly 200 entries). -/
theorem C6_addColor_limit (generateColorName : List NamedColor → Option NamedColor → String)
    (colors : List NamedColor) (c : RgbColor) (closestColor : Option NamedColor) :
    ((ColorPalette.addColor generateColorName colors (some c) closestColor).1 = false
      ↔ MAX_PALETTE_COLORS ≤ colors.length) ∧
    (colors.length < MAX_PALETTE_COLORS →
      ColorPalette.addColor generateColorName colors (some c) closestColor
        = (true, ⟨generateColorName colors closestColor, c⟩ :: colors)) := by
  unfold ColorPalette.addColor
  constructor
  · by_cases h : MAX_PALETTE_COLORS ≤ colors.length
    · simp [h]
    · simp [h]
  · intro h
    show (if MAX_PALETTE_COLORS ≤ colors.length then (false, colors)
        else (true, ⟨generateColorName colors closestColor, c⟩ :: colors))
      = (true, ⟨generateColorName colors closestColor, c⟩ :: colors)
    rw [if_neg (not_le.mpr h)]

/-- C6 counterexample: a palette of exactly 200 entries — no more than 254,
so the claim demands acceptance — is refused by `addColor`. -/
theorem C6_counterexample :
    (ColorPalette.addColor (fun _ _ => "Custom (1)")
        (List.replicate 200 ⟨"c", ⟨0, 0, 0⟩⟩) (some ⟨0, 0, 0⟩) none).1 = false ∧
    (List.replicate 200 (⟨"c", ⟨0, 0, 0⟩⟩ : NamedColor)).length ≤ 254 := by
  constructor
  · show (if MAX_PALETTE_COLORS
          ≤ (List.replicate 200 (⟨"c", ⟨0, 0, 0⟩⟩ : NamedColor)).length then
        (false, List.replicate 200 (⟨"c", ⟨0, 0, 0⟩⟩ : NamedColor))
      else (true, (⟨"Custom (1)", ⟨0, 0, 0⟩⟩ : NamedColor) ::
        List.replicate 200 ⟨"c", ⟨0, 0, 0⟩⟩)).1 = false
    rw [if_pos (by rw [List.length_replicate]; norm_num [MAX_PALETTE_COLORS])]
  · rw [List.length_replicate]
    norm_num

/-- C6 witness: the amended limit theorem applied at a concrete input: the
empty palette accepts a color. -/
theorem C6_witness :
    ([] : List NamedColor).length < MAX_PALETTE_COLORS ∧
    ColorPalette.addColor (fun _ _ => "Custom (1)") [] (some ⟨0, 0, 0⟩) none
      = (true, [⟨"Custom (1)", ⟨0, 0, 0⟩⟩]) := by
  refine ⟨by norm_num [MAX_PALETTE_COLORS], ?_⟩
  exact (C6_addColor_limit (fun _ _ => "Custom (1)") [] ⟨0, 0, 0⟩ none).2
    (by norm_num [MAX_PALETTE_COLORS])

/-! ## Claim C7: boundary suppression under HideOther -/

/-- C7 (amended): boundary stroking is disabled for every pixel whenever
the highlight mode is HideOther (mode 1) **and** a highlight palette index
is set (`u_highlightPaletteIndex >= 0`). The original claim's "for every
value of the highlight palette index" fails: with HideOther active but no
highlight index set (-1), ordinary boundaries are still drawn (see the
counterexample). -/
theorem C7_no_boundary_when_hiding (u : RenderUniforms) (tex : ℤ × ℤ → Vec4)
    (pixelCoord : ℤ × ℤ) (paletteIndex : ℤ)
    (hmode : u.highlightMode = 1) (hidx : 0 ≤ u.highlightPaletteIndex) :
    showBoundary u tex pixelCoord paletteIndex = false := by
  unfold showBoundary
  rw [if_pos ⟨hmode, hidx⟩]

/-- C7 counterexample: highlight mode HideOther (1) with highlight index
-1 and `u_showBoundaries` on: the pixel at `(1, 0)` whose left neighbor
decodes to palette index 1 (≠ its own index 0, ≠ 255) is still stroked as
a boundary, contradicting "boundary stroking is disabled entirely, for
every value of the highlight palette index". -/
theorem C7_counterexample :
    showBoundary ⟨true, -1, 1⟩
      (fun p => if p = ((0 : ℤ), (0 : ℤ)) then ⟨0, 0, 0, 1 / 255⟩ else ⟨0, 0, 0, 0⟩)
      (1, 0) 0 = true := by
  have hleft :
      ((fun p => if p = ((0 : ℤ), (0 : ℤ)) then (⟨0, 0, 0, 1 / 255⟩ : Vec4)
        else ⟨0, 0, 0, 0⟩) (((1 : ℤ), (0 : ℤ)).1 - 1, ((1 : ℤ), (0 : ℤ)).2)) =
      ⟨0, 0, 0, 1 / 255⟩ := by norm_num
  have hidx1 : getPaletteIndex ((1 : ℝ) / 255) = 1 := by
    unfold getPaletteIndex glslInt
    rw [if_neg (by norm_num)]
    rw [show (1 : ℝ) / 255 * 255 + 0.5 = 3 / 2 by norm_num]
    rw [show (1 : ℤ) = ⌊(3 / 2 : ℝ)⌋ by norm_num [Int.floor_eq_iff]]
  have hbpi : boundaryPaletteIndex
      (fun p => if p = ((0 : ℤ), (0 : ℤ)) then ⟨0, 0, 0, 1 / 255⟩ else ⟨0, 0, 0, 0⟩)
      (1, 0) 0 = 1 := by
    unfold boundaryPaletteIndex
    rw [hleft]
    rw [if_pos ⟨by norm_num, by rw [hidx1]; norm_num, by rw [hidx1]; norm_num⟩]
    exact hidx1
  unfold showBoundary
  rw [if_neg (by norm_num), if_neg (by norm_num), if_pos rfl, hbpi]
  norm_num

/-- C7 witness: the amended suppression theorem applied at a concrete
input: HideOther with highlight index 0 draws no boundary. -/
theorem C7_witness :
    (⟨true, 0, 1⟩ : RenderUniforms).highlightMode = 1 ∧
    showBoundary ⟨true, 0, 1⟩ (fun _ => ⟨0, 0, 0, 0⟩) (1, 0) 0 = false :=
  ⟨rfl, C7_no_boundary_when_hiding ⟨true, 0, 1⟩ (fun _ => ⟨0, 0, 0, 0⟩) (1, 0) 0 rfl
    (by norm_num)⟩

/-! ## Claim C8: cube wireframe generation -/

/-- C8: for every slice, the wireframe buffer holds the positions of the 8
sliced sub-box corners followed by the 8 full-unit-cube corners, and its
line list is the cube edge list emitted once for the sub-box block and
once shifted by 8 for the full-cube block. The edge list consists of
exactly 12 line pairs; each pair connects corner `i` to `i XOR (1 <<
axis)` and is emitted only from the endpoint whose axis bit is 1, so every
one of the 12 cube edges appears exactly once. -/
theorem C8_cube_wireframe (s : AxisRanges) :
    (generateCubeWireframe s).1
      = (generateCubeCornerColors s ++ generateCubeCornerColors FULL_NORMALIZED_AXES).map
          (colorCoordToPosition · CUBE_SIZE_3D) ∧
    (generateCubeWireframe s).2
      = generateCubeWireframeIndices ++ generateCubeWireframeIndices.map (· + 8) ∧
    (pairUp generateCubeWireframeIndices).length = 12 ∧
    (∀ p ∈ pairUp generateCubeWireframeIndices,
      p.1 < 8 ∧ ∃ a : Fin 3, p.1.testBit a.val = true ∧ p.2 = p.1 ^^^ (1 <<< a.val)) ∧
    (∀ i < 8, ∀ a < 3, i.testBit a = true →
      (pairUp generateCubeWireframeIndices).count (i, i ^^^ (1 <<< a)) = 1) := by
  refine ⟨rfl, rfl, by decide, by decide, by decide⟩

/-! ## Claim C9: cross-section interpolation safety -/

theorem foldl_min_of_le (l : List ℝ) (a : ℝ) (h : ∀ x ∈ l, a ≤ x) : l.foldl min a = a := by
  induction l generalizing a with
  | nil => rfl
  | cons x t ih =>
    rw [List.foldl_cons, min_eq_left (h x (List.mem_cons_self x t))]
    exact ih a (fun y hy => h y (List.mem_cons_of_mem x hy))

theorem le_foldl_max (l : List ℝ) (a c : ℝ) (h : c ∈ l ∨ c ≤ a) : c ≤ l.foldl max a := by
  induction l generalizing a with
  | nil =>
    rcases h with h | h
    · exact absurd h (List.not_mem_nil c)
    · simpa using h
  | cons x t ih =>
    rw [List.foldl_cons]
    rcases h with h | h
    · rcases List.mem_cons.mp h with rfl | hmem
      · exact ih (max a c) (Or.inr (le_max_right a c))
      · exact ih (max a x) (Or.inl hmem)
    · exact ih (max a x) (Or.inr (le_trans h (le_max_left a x)))

/-- C9 (amended): whenever the edge-crossing test of `generateCrossSections`
accepts a cube edge whose two transformed endpoint depths differ, the
interpolation divisor `endZ - startZ` is nonzero, the parameter `t` lies in
`[0, 1]`, and the linear interpolation of any two endpoint color components
in `[0, 1]` stays in `[0, 1]`. The original claim quantified over every
rotation matrix without the distinct-depth proviso; it fails for a rotation
that places an edge parallel to the view plane exactly on a sampled plane
depth, where the test accepts with divisor zero (JS then computes `0/0 =
NaN` positions and color coordinates) — see the counterexample. -/
theorem C9_cross_section_interpolation (M : Mat4) (k : ℕ) (e : ℕ × ℕ)
    (hemit : crossSectionEmits M k e) (hne : edgeZ M e.1 ≠ edgeZ M e.2) :
    edgeZ M e.2 - edgeZ M e.1 ≠ 0 ∧
    0 ≤ crossSectionT M k e ∧ crossSectionT M k e ≤ 1 ∧
    ∀ a b : ℝ, 0 ≤ a → a ≤ 1 → 0 ≤ b → b ≤ 1 →
      0 ≤ a + (b - a) * crossSectionT M k e ∧ a + (b - a) * crossSectionT M k e ≤ 1 := by
  obtain ⟨hloop, hmem, hcross⟩ := hemit
  have hdiff : edgeZ M e.2 - edgeZ M e.1 ≠ 0 := sub_ne_zero.mpr (Ne.symm hne)
  have ht : 0 ≤ crossSectionT M k e ∧ crossSectionT M k e ≤ 1 := by
    unfold crossSectionT
    unfold edgeCrossesPlane at hcross
    rcases hcross with ⟨h1, h2⟩ | ⟨h1, h2⟩
    · have hlt : edgeZ M e.1 < edgeZ M e.2 := lt_of_le_of_ne (le_trans h1 h2) hne
      constructor
      · exact div_nonneg (by linarith) (by linarith)
      · rw [div_le_one (by linarith)]
        linarith
    · have hlt : edgeZ M e.2 < edgeZ M e.1 := lt_of_le_of_ne (le_trans h1 h2) (Ne.symm hne)
      constructor
      · exact div_nonneg_iff.mpr (Or.inr ⟨by linarith, by linarith⟩)
      · have h4 : 0 ≤ (edgeZ M e.2 - edgeZ M e.1 - (crossPlaneZ M k - edgeZ M e.1))
            / (edgeZ M e.2 - edgeZ M e.1) :=
          div_nonneg_iff.mpr (Or.inr ⟨by linarith, by linarith⟩)
        have h5 : (edgeZ M e.2 - edgeZ M e.1 - (crossPlaneZ M k - edgeZ M e.1))
            / (edgeZ M e.2 - edgeZ M e.1)
            = 1 - (crossPlaneZ M k - edgeZ M e.1) / (edgeZ M e.2 - edgeZ M e.1) := by
          field_simp
        rw [h5] at h4
        linarith
  refine ⟨hdiff, ht.1, ht.2, ?_⟩
  intro a b ha ha1 hb hb1
  constructor
  · nlinarith [mul_nonneg ha (sub_nonneg.mpr ht.2), mul_nonneg hb ht.1]
  · nlinarith [mul_nonneg (by linarith : (0:ℝ) ≤ 1 - a) (sub_nonneg.mpr ht.2),
      mul_nonneg (by linarith : (0:ℝ) ≤ 1 - b) ht.1]

/-- C9 counterexample: under the genuine rotation matrix `rotationX30`
(30 degrees about the x-axis), loop iteration 31 samples the plane depth
`minZ + 32/64 = (1-√3)/4`, which is exactly the constant depth of the cube
edge from corner 3 to corner 2; the edge-crossing test accepts this edge
while the interpolation divisor `endZ - startZ` is zero, so the claim
"for every 4x4 rotation matrix ... the divisor is nonzero" is false (and
in JS the resulting `t = 0/0 = NaN` poisons the emitted vertex). -/
theorem C9_counterexample :
    rotationX30.isRotation ∧
    crossSectionEmits rotationX30 31 (3, 2) ∧
    edgeZ rotationX30 2 - edgeZ rotationX30 3 = 0 := by
  have hs3 : Real.sqrt 3 * Real.sqrt 3 = 3 := Real.mul_self_sqrt (by norm_num)
  have hs3nn : 0 ≤ Real.sqrt 3 := Real.sqrt_nonneg 3
  have hs3pos : 0 < Real.sqrt 3 := Real.sqrt_pos.mpr (by norm_num)
  have hzs : crossSectionZs rotationX30
      = [-(1/4) - Real.sqrt 3 / 4, -(1/4) - Real.sqrt 3 / 4,
         1/4 - Real.sqrt 3 / 4, 1/4 - Real.sqrt 3 / 4,
         Real.sqrt 3 / 4 - 1/4, Real.sqrt 3 / 4 - 1/4,
         1/4 + Real.sqrt 3 / 4, 1/4 + Real.sqrt 3 / 4] := by
    have hcorners : generateCubeCornerColors FULL_NORMALIZED_AXES
        = [⟨0, 0, 0⟩, ⟨1, 0, 0⟩, ⟨0, 1, 0⟩, ⟨1, 1, 0⟩,
           ⟨0, 0, 1⟩, ⟨1, 0, 1⟩, ⟨0, 1, 1⟩, ⟨1, 1, 1⟩] := rfl
    unfold crossSectionZs
    rw [hcorners]
    simp only [List.map_cons, List.map_nil,
      colorCoordToPosition, transformMat4, rotationX30, CUBE_SIZE_3D]
    norm_num
    repeat' apply And.intro
    all_goals ring
  have hmin : crossMinZ rotationX30 = -(1/4) - Real.sqrt 3 / 4 := by
    unfold crossMinZ
    rw [hzs]
    show List.foldl min (-(1/4) - Real.sqrt 3 / 4)
        [-(1/4) - Real.sqrt 3 / 4, 1/4 - Real.sqrt 3 / 4, 1/4 - Real.sqrt 3 / 4,
         Real.sqrt 3 / 4 - 1/4, Real.sqrt 3 / 4 - 1/4,
         1/4 + Real.sqrt 3 / 4, 1/4 + Real.sqrt 3 / 4] = -(1/4) - Real.sqrt 3 / 4
    refine foldl_min_of_le _ _ ?_
    intro x hx
    fin_cases hx <;> linarith
  have hplane : crossPlaneZ rotationX30 31 = 1/4 - Real.sqrt 3 / 4 := by
    unfold crossPlaneZ crossSectionWidth CROSS_SECTION_SCALE CUBE_SIZE_3D
    rw [hmin]
    norm_num
    ring
  have hmaxlb : 1/4 + Real.sqrt 3 / 4 ≤ crossMaxZ rotationX30 := by
    unfold crossMaxZ
    rw [hzs]
    show 1/4 + Real.sqrt 3 / 4 ≤ List.foldl max (-(1/4) - Real.sqrt 3 / 4)
        [-(1/4) - Real.sqrt 3 / 4, 1/4 - Real.sqrt 3 / 4, 1/4 - Real.sqrt 3 / 4,
         Real.sqrt 3 / 4 - 1/4, Real.sqrt 3 / 4 - 1/4,
         1/4 + Real.sqrt 3 / 4, 1/4 + Real.sqrt 3 / 4]
    refine le_foldl_max _ _ _ (Or.inl ?_)
    simp
  have he3 : edgeZ rotationX30 3 = 1/4 - Real.sqrt 3 / 4 := by
    unfold edgeZ
    rw [hzs]
    rfl
  have he2 : edgeZ rotationX30 2 = 1/4 - Real.sqrt 3 / 4 := by
    unfold edgeZ
    rw [hzs]
    rfl
  refine ⟨?_, ⟨?_, by decide, ?_⟩, ?_⟩
  · unfold Mat4.isRotation
    refine ⟨?_, ?_, ?_, ?_, ?_, ?_, ?_, rfl, rfl, rfl, rfl, rfl, rfl, rfl⟩
    · simp only [rotationX30]
      norm_num
    · simp only [rotationX30]
      linear_combination (1/4) * hs3
    · simp only [rotationX30]
      linear_combination (1/4) * hs3
    · simp only [rotationX30]
      ring
    · simp only [rotationX30]
      ring
    · simp only [rotationX30]
      ring
    · simp only [rotationX30]
      linear_combination (1/4) * hs3
  · rw [hplane]
    refine lt_of_lt_of_le ?_ hmaxlb
    linarith
  · have hA : edgeZ rotationX30 3 ≤ crossPlaneZ rotationX30 31 := by
      rw [he3, hplane]
    have hB : crossPlaneZ rotationX30 31 ≤ edgeZ rotationX30 2 := by
      rw [he2, hplane]
    exact Or.inl ⟨hA, hB⟩
  · rw [he2, he3]
    ring

/-- C9 witness: the amended interpolation theorem applied at a concrete
input: the identity camera rotation, loop iteration 0 (plane depth
`-31/64`) and the cube edge from corner 4 (depth `1/2`) to corner 0
(depth `-1/2`), whose divisor is `-1` and whose parameter is `63/64`. -/
theorem C9_witness :
    crossSectionEmits identityMat4 0 (4, 0) ∧
    edgeZ identityMat4 4 ≠ edgeZ identityMat4 0 ∧
    edgeZ identityMat4 0 - edgeZ identityMat4 4 ≠ 0 ∧
    0 ≤ crossSectionT identityMat4 0 (4, 0) ∧ crossSectionT identityMat4 0 (4, 0) ≤ 1 := by
  have hzs : crossSectionZs identityMat4
      = [-(1/2), -(1/2), -(1/2), -(1/2), 1/2, 1/2, 1/2, 1/2] := by
    have hcorners : generateCubeCornerColors FULL_NORMALIZED_AXES
        = [⟨0, 0, 0⟩, ⟨1, 0, 0⟩, ⟨0, 1, 0⟩, ⟨1, 1, 0⟩,
           ⟨0, 0, 1⟩, ⟨1, 0, 1⟩, ⟨0, 1, 1⟩, ⟨1, 1, 1⟩] := rfl
    unfold crossSectionZs
    rw [hcorners]
    simp only [List.map_cons, List.map_nil,
      colorCoordToPosition, transformMat4, identityMat4, CUBE_SIZE_3D]
    norm_num
  have hmin : crossMinZ identityMat4 = -(1/2) := by
    unfold crossMinZ
    rw [hzs]
    show List.foldl min (-(1/2) : ℝ)
        [-(1/2), -(1/2), -(1/2), 1/2, 1/2, 1/2, 1/2] = -(1/2)
    refine foldl_min_of_le _ _ ?_
    intro x hx
    fin_cases hx <;> norm_num
  have hplane : crossPlaneZ identityMat4 0 = -(31/64) := by
    unfold crossPlaneZ crossSectionWidth CROSS_SECTION_SCALE CUBE_SIZE_3D
    rw [hmin]
    norm_num
  have hmaxlb : (1/2 : ℝ) ≤ crossMaxZ identityMat4 := by
    unfold crossMaxZ
    rw [hzs]
    show (1/2 : ℝ) ≤ List.foldl max (-(1/2) : ℝ)
        [-(1/2), -(1/2), -(1/2), 1/2, 1/2, 1/2, 1/2]
    refine le_foldl_max _ _ _ (Or.inl ?_)
    simp
  have he4 : edgeZ identityMat4 4 = 1/2 := by
    unfold edgeZ
    rw [hzs]
    rfl
  have he0 : edgeZ identityMat4 0 = -(1/2) := by
    unfold edgeZ
    rw [hzs]
    rfl
  have hemit : crossSectionEmits identityMat4 0 (4, 0) := by
    refine ⟨?_, by decide, ?_⟩
    · rw [hplane]
      refine lt_of_lt_of_le ?_ hmaxlb
      norm_num
    · have hA : edgeZ identityMat4 0 ≤ crossPlaneZ identityMat4 0 := by
        rw [he0, hplane]
        norm_num
      have hB : crossPlaneZ identityMat4 0 ≤ edgeZ identityMat4 4 := by
        rw [he4, hplane]
        norm_num
      exact Or.inr ⟨hA, hB⟩
  have hne : edgeZ identityMat4 4 ≠ edgeZ identityMat4 0 := by
    rw [he4, he0]
    norm_num
  obtain ⟨hd, h0, h1, _⟩ := C9_cross_section_interpolation identityMat4 0 (4, 0) hemit hne
  exact ⟨hemit, hne, hd, h0, h1⟩

/-! ## Claim C10: default for absent axes -/

/-- C10: for every color space (list of axes whose ranges are nondegenerate,
as all three shipped spaces are) and every axis-slice map,
`_normalizedAxisSlices` maps each axis to its normalized slice
`((lo - min)/(max - min), (hi - min)/(max - min))` when the axis is present
in the map, and to the full normalized range `(0, 1)` when it is absent;
hence a 2D request carrying a single-axis map renders the other two axes
over their full `[0, 1]` range. -/
theorem C10_normalized_axis_slices (axes : List Axis) (axisSlices : Axis → Option (ℚ × ℚ))
    (h : ∀ a ∈ axes, a.min < a.max) :
    normalizedAxisSlices axes axisSlices
      = axes.map (fun a =>
          match axisSlices a with
          | none => ((0 : ℚ), (1 : ℚ))
          | some r => ((r.1 - a.min) / (a.max - a.min), (r.2 - a.min) / (a.max - a.min))) := by
  unfold normalizedAxisSlices
  refine List.map_congr_left ?_
  intro a ha
  have hne : a.max - a.min ≠ 0 := sub_ne_zero.mpr (ne_of_gt (h a ha))
  cases hs : axisSlices a with
  | none =>
    simp only [hs, Option.getD]
    rw [sub_self, zero_div, div_self hne]
  | some r =>
    simp only [hs, Option.getD]

/-- C10 witness: the normalization theorem applied at a concrete input: the
RGB color space's three axes (`min = 0`, `max = 100`) with a map carrying
only the red axis fixed at `[50, 50]`; the red axis normalizes to
`(1/2, 1/2)` and the two absent axes to the full `(0, 1)` range. -/
theorem C10_witness :
    normalizedAxisSlices
        [Axis.make "red" "%" 100 50, Axis.make "green" "%" 100 50,
         Axis.make "blue" "%" 100 50]
        (fun a => if a.key = "red" then some (50, 50) else none)
      = [(1/2, 1/2), (0, 1), (0, 1)] := by
  rw [C10_normalized_axis_slices _ _ ?_]
  · simp only [List.map_cons, List.map_nil, Axis.make]
    rw [if_pos trivial, if_neg (by decide), if_neg (by decide)]
    norm_num
  · intro a ha
    fin_cases ha <;> norm_num [Axis.make]

end
